import Mathlib

/-!
A shallow embedding of the transformation core of p8lua (src/p8lua.py, with
src/lua_to_p8.py as an earlier near-identical version): the container codec
(parse_p8 / reassembly), the conditional-compilation engine
(process_lua_for_p8) and the syntax normalizer (convert_p8_syntax_to_lua).

Text is modelled as `List Char`.  Python's regular expressions are embedded
as explicit character scanners that reproduce the leftmost-match, greedy /
non-greedy and backtracking behaviour of the concrete patterns used by the
source.  `\w` is modelled for ASCII input as letters, digits and underscore;
`\s` as the six ASCII whitespace characters Python's `re` recognizes;
`str.splitlines` is modelled for newline-terminated text (the only separator
the source's data uses).  Scanners that advance by a computed amount take a
fuel argument; every wrapper passes `length + 1`, which bounds the number of
scanning steps since each step consumes at least one character.
-/

namespace P8Lua

/-- The characters Python's `\s` matches on ASCII input. -/
def isSpaceChar (c : Char) : Bool :=
  c = ' ' || c = '\t' || c = '\n' || c = '\x0d' || c = '\x0b' || c = '\x0c'

/-- Python's `\w` on ASCII input: letters, digits, underscore. -/
def isWordChar (c : Char) : Bool :=
  c.isAlphanum || c = '_'

/-- `str.startswith` (also how a literal piece of a regex matches at a
position). -/
def startsWith : List Char → List Char → Bool
  | [], _ => true
  | a :: ps, s =>
    match s with
    | [] => false
    | b :: ss => a == b && startsWith ps ss

/-- Whether `pat` occurs anywhere in `s`, as Python's `in` on strings. -/
def containsSeq (pat : List Char) : List Char → Bool
  | [] => startsWith pat []
  | c :: s => startsWith pat (c :: s) || containsSeq pat s

/-- `str.splitlines` for text whose line separator is `\n`:
no trailing empty line for newline-terminated text. -/
def splitLinesAux : Nat → List Char → List (List Char)
  | 0, _ => []
  | _ + 1, [] => []
  | fuel + 1, s =>
    let line := s.takeWhile (fun c => !(c = '\n'))
    match s.drop line.length with
    | [] => [line]
    | _ :: rest => line :: splitLinesAux fuel rest

def splitLines (s : List Char) : List (List Char) :=
  splitLinesAux (s.length + 1) s

/-- The `__lua__` section marker line of a .p8 cartridge, with the
surrounding newlines exactly as the `parse_p8` regex spells them. -/
def luaMarker : List Char := "\n__lua__\n".toList

/-- The `__gfx__` section marker line of a .p8 cartridge. -/
def gfxMarker : List Char := "\n__gfx__\n".toList

/-- Position of the last occurrence of `m` in `s` (the largest `i` with
`m` matching at `s.drop i`), or `none`.  This is where a greedy `.*` in
front of a literal lands under Python's backtracking. -/
def lastOcc (m : List Char) : List Char → Option Nat
  | [] => if startsWith m [] then some 0 else none
  | c :: s =>
    match lastOcc m s with
    | some i => some (i + 1)
    | none => if startsWith m (c :: s) then some 0 else none

/-- `parse_p8` on the cartridge text: the regex
`(.*\n__lua__\n)(.*)(\n__gfx__\n.*)` with DOTALL, all three `.*` greedy.
Group 1 extends through the last `\n__lua__\n` that still leaves a
`\n__gfx__\n` after it, group 2 through the last `\n__gfx__\n`, group 3 to
the end of the text.  `none` models `findall` returning no match, in which
case the source's `result[0]` raises IndexError (the guard
`tail = '' if len(result[0]) == 2 else ...` is unreachable: a 3-group
`findall` only ever yields 3-tuples). -/
def parse_p8 (s : List Char) : Option (List Char × List Char × List Char) :=
  match lastOcc gfxMarker s with
  | none => none
  | some j =>
    match lastOcc luaMarker (s.take j) with
    | none => none
    | some i =>
      some (s.take (i + luaMarker.length),
            ((s.drop (i + luaMarker.length)).take (j - (i + luaMarker.length)),
             s.drop j))

/-- `on_lua_changed` reassembles the cartridge as `head ++ code ++ tail`. -/
def p8join (head code tail : List Char) : List Char :=
  head ++ code ++ tail

/-- `is_active_code(active, defined)`: true when no `--#if` block is open,
otherwise true iff at least one open label is defined.  The Python function
returns `None` (falsy) when the loop finds no defined tag; the shallow
embedding returns `false` there. -/
def is_active_code (active defined : List (List Char)) : Bool :=
  if active.length = 0 then true
  else active.any (fun tag => defined.contains tag)

/-- The state of the directive-resolution loop of `process_lua_for_p8`:
the `defined` and `active` label sets (Python `set`s of strings, modelled
as duplicate-free lists built by membership-checked insertion) and the
output text accumulated so far. -/
structure DirState where
  defined : List (List Char)
  active : List (List Char)
  out : List Char
deriving DecidableEq

def initDirState : DirState := ⟨[], [], []⟩

/-- `re.match("^\s*--.*$", line)`: after the maximal leading whitespace run
the line continues with `--` (the quantifiers are deterministic because no
whitespace character can start the literal `--`). -/
def isFullLineComment (line : List Char) : Bool :=
  startsWith ("--".toList) (line.dropWhile isSpaceChar)

/-- `re.sub("\s*--.*$", "", line)`: truncate the line at the leftmost
position from which a whitespace run followed by `--` reaches; the match
always extends to the end of the line. -/
def stripEolComment : List Char → List Char
  | [] => []
  | c :: s =>
    if startsWith ("--".toList) ((c :: s).dropWhile isSpaceChar) then []
    else c :: stripEolComment s

/-- One iteration of the directive-resolution loop of `process_lua_for_p8`
(src/p8lua.py lines 157-180): recognize `--#define ` / `--#undefine ` /
`--#if ` / `--#end ` prefixes in that order, consuming the line; otherwise
apply the per-line `removecommentssingle` handling and emit the line when
`is_active_code` holds.  Python's `set.add` is a no-op on a present
element, `set.discard` removes it. -/
def directiveStep (st : DirState) (line : List Char) : DirState :=
  if startsWith ("--#define ".toList) line then
    { st with defined := if line.drop 10 ∈ st.defined then st.defined
                         else line.drop 10 :: st.defined }
  else if startsWith ("--#undefine ".toList) line then
    { st with defined := st.defined.erase (line.drop 12) }
  else if startsWith ("--#if ".toList) line then
    { st with active := if line.drop 6 ∈ st.active then st.active
                        else line.drop 6 :: st.active }
  else if startsWith ("--#end ".toList) line then
    { st with active := st.active.erase (line.drop 7) }
  else if ("removecommentssingle".toList) ∈ st.defined then
    if isFullLineComment line then st
    else if is_active_code st.active st.defined then
      { st with out := st.out ++ stripEolComment line ++ ['\n'] }
    else st
  else if is_active_code st.active st.defined then
    { st with out := st.out ++ line ++ ['\n'] }
  else st

/-- The whole directive-resolution pass, from fresh (empty) label sets. -/
def runDirectives (lines : List (List Char)) : DirState :=
  lines.foldl directiveStep initDirState

/-- Position of the first occurrence of `m` in `s`, or `none` (where a
non-greedy `.*?` followed by the literal `m` stops). -/
def firstOcc (m : List Char) : List Char → Option Nat
  | [] => if startsWith m [] then some 0 else none
  | c :: s =>
    if startsWith m (c :: s) then some 0
    else (firstOcc m s).map (· + 1)

/-- `re.sub("--\[\[.*?\]\]--", "\n", result, flags=re.DOTALL)`: every
non-overlapping span from a `--[[` to the earliest following `]]--` is
replaced by a single newline. -/
def stripMultiAux : Nat → List Char → List Char
  | 0, s => s
  | _ + 1, [] => []
  | fuel + 1, c :: s =>
    if startsWith ("--[[".toList) (c :: s) then
      match firstOcc ("]]--".toList) ((c :: s).drop 4) with
      | some q => '\n' :: stripMultiAux fuel ((c :: s).drop (4 + q + 4))
      | none => c :: stripMultiAux fuel s
    else c :: stripMultiAux fuel s

def stripMultiComments (s : List Char) : List Char :=
  stripMultiAux (s.length + 1) s

/-- The include pass of `process_lua_for_p8` (src/p8lua.py lines 145-154):
each `--#include ` line is replaced by the resolved file contents plus a
newline; other lines pass through newline-terminated.  `resolve` models
`open(path + ".lua").read()`; `none` models the IOError raised for an
unreadable path, which propagates (no output is produced). -/
def includeLines (resolve : List Char → Option (List Char)) :
    List (List Char) → Option (List Char)
  | [] => some []
  | line :: rest =>
    if startsWith ("--#include ".toList) line then
      match resolve (line.drop 11) with
      | none => none
      | some txt => (includeLines resolve rest).map (fun r => txt ++ '\n' :: r)
    else (includeLines resolve rest).map (fun r => line ++ '\n' :: r)

/-- The lvalue character class `[\w\.\[\]\/\-\*\+]` of
`re_sub_update_operator` and `re_sub_not_equal`. -/
def isClass1 (c : Char) : Bool :=
  isWordChar c || c = '.' || c = '[' || c = ']' || c = '/' || c = '-' ||
    c = '*' || c = '+'

/-- The rvalue character class `[\w\"\']` (39 is the single quote). -/
def isRvalChar (c : Char) : Bool :=
  isWordChar c || c = '"' || c = Char.ofNat 39

/-- Matching `(\s*)<op>=(\s*)([\w\"\']+)` at the start of `s`: both `\s*`
and the final `+` are deterministic (whitespace, the operator and rvalue
characters are pairwise exclusive where it matters), so this returns the
two whitespace groups, the rvalue group and the matched length. -/
def matchOpTail (op : Char) (s : List Char) :
    Option (List Char × List Char × List Char × Nat) :=
  let ws1 := s.takeWhile isSpaceChar
  match s.drop ws1.length with
  | c1 :: c2 :: rest =>
    if c1 = op then
      if c2 = '=' then
        let ws2 := rest.takeWhile isSpaceChar
        let g4 := (rest.drop ws2.length).takeWhile isRvalChar
        if g4.length = 0 then none
        else some (ws1, ws2, g4, ws1.length + 2 + ws2.length + g4.length)
      else none
    else none
  | _ => none

/-- Backtracking for the greedy lvalue group `([\w\.\[\]\/\-\*\+]+)`:
`g1rev` is the reversed candidate group (initially the maximal class run),
and characters are given back to the remainder one at a time until the
tail of the pattern matches.  Returns the lvalue group, the two whitespace
groups, the rvalue group and the total matched length. -/
def backG1 (op : Char) (g1rev rest : List Char) :
    Option (List Char × List Char × List Char × List Char × Nat) :=
  match g1rev with
  | [] => none
  | c :: g1r =>
    match matchOpTail op rest with
    | some (ws1, ws2, g4, n) =>
      some ((c :: g1r).reverse, ws1, ws2, g4, (g1r.length + 1) + n)
    | none => backG1 op g1r (c :: rest)

/-- `re.sub` scanning for the pattern
`([\w\.\[\]\/\-\*\+]+)(\s*)<op>=(\s*)([\w\"\']+)`: leftmost match, greedy
lvalue with backtracking, replacement assembled from the groups by `repl`,
scanning resumes after the match. -/
def subOpAux (op : Char)
    (repl : List Char → List Char → List Char → List Char → List Char) :
    Nat → List Char → List Char
  | 0, s => s
  | _ + 1, [] => []
  | fuel + 1, c :: s =>
    if isClass1 c then
      let run := (c :: s).takeWhile isClass1
      match backG1 op run.reverse ((c :: s).drop run.length) with
      | some (g1, ws1, ws2, g4, n) =>
        repl g1 ws1 ws2 g4 ++ subOpAux op repl fuel ((c :: s).drop n)
      | none => c :: subOpAux op repl fuel s
    else c :: subOpAux op repl fuel s

/-- `re_sub_update_operator(op, lua)`: rewrite `<lvalue> <op>= <rvalue>` to
`<lvalue>=<lvalue> <op> <rvalue>` (replacement `r"\1=\1 %s \4" % op`: the
matched whitespace groups are dropped). -/
def re_sub_update_operator (op : Char) (lua : List Char) : List Char :=
  subOpAux op (fun g1 _ _ g4 => g1 ++ '=' :: (g1 ++ ' ' :: op :: ' ' :: g4))
    (lua.length + 1) lua

/-- `re_sub_not_equal(lua)`: rewrite `<lvalue>!=<rvalue>` to
`<lvalue>~=<rvalue>` (replacement `r"\1\2~=\3\4"`: whitespace preserved). -/
def re_sub_not_equal (lua : List Char) : List Char :=
  subOpAux '!' (fun g1 ws1 ws2 g4 => g1 ++ ws1 ++ '~' :: '=' :: (ws2 ++ g4))
    (lua.length + 1) lua

/-- The character loop of `get_if_condition`, carried state
`(depth, start, stop, i)` exactly as in the source; returns the final
`(start, stop)` (the loop breaks as soon as `depth` reaches 0 after a
character is processed). -/
def gicLoop : List Char → Int → Nat → Nat → Nat → Nat × Nat
  | [], _, start, stop, _ => (start, stop)
  | c :: cs, depth, start, stop, i =>
    let p := if c = '(' then
               (if depth = -1 then ((1 : Int), i) else (depth + 1, start))
             else (depth, start)
    let d := if c = ')' then p.1 - 1 else p.1
    if d = 0 then (p.2, i) else gicLoop cs d p.2 stop (i + 1)

/-- Python slice `s[a:b]`. -/
def pySlice (s : List Char) (a b : Nat) : List Char :=
  (s.take b).drop a

/-- `get_if_condition(statement)`: scan for the first balanced parenthesis
group; return (the substring strictly inside it, everything after the
closing parenthesis). -/
def get_if_condition (statement : List Char) : List Char × List Char :=
  let r := gicLoop statement (-1) 0 0 0
  (pySlice statement (r.1 + 1) r.2, statement.drop (r.2 + 1))

/-- Matching `[\n](\s*)(if\s*\(.*\).*)[\n]` at the start of `s` (no DOTALL:
`.` stops at a newline; each `\s*` is deterministic because neither `i`
nor `(` is whitespace; the greedy `.*\).*` requires a `)` somewhere on the
line and then takes the whole line).  Returns `(r[0], r[1], r[2])`: the
full match including both newlines, the whitespace group and the
`if...`-to-end-of-line group. -/
def matchIfAt (s : List Char) : Option (List Char × List Char × List Char) :=
  match s with
  | '\n' :: t =>
    let ws := t.takeWhile isSpaceChar
    match t.drop ws.length with
    | 'i' :: 'f' :: t2 =>
      let ws2 := t2.takeWhile isSpaceChar
      match t2.drop ws2.length with
      | '(' :: t4 =>
        let lineRest := t4.takeWhile (fun c => !(c = '\n'))
        if lineRest.contains ')' then
          match t4.drop lineRest.length with
          | '\n' :: _ =>
            let r2 := 'i' :: 'f' :: (ws2 ++ '(' :: lineRest)
            some ('\n' :: (ws ++ r2 ++ ['\n']), ws, r2)
          | _ => none
        else none
      | _ => none
    | _ => none
  | _ => none

/-- `re.findall` for the `convert_if` pattern: scan left to right,
non-overlapping, each match consuming its trailing newline. -/
def findIfMatches : Nat → List Char → List (List Char × List Char × List Char)
  | 0, _ => []
  | _ + 1, [] => []
  | fuel + 1, c :: s =>
    match matchIfAt (c :: s) with
    | some r => r :: findIfMatches fuel ((c :: s).drop r.1.length)
    | none => findIfMatches fuel s

/-- `str.replace(old, new)`: all non-overlapping occurrences, left to
right (`old` is never empty where the source uses it). -/
def replaceAll : Nat → List Char → List Char → List Char → List Char
  | 0, s, _, _ => s
  | _ + 1, [], _, _ => []
  | fuel + 1, c :: s, old, nw =>
    if startsWith old (c :: s) then
      nw ++ replaceAll fuel ((c :: s).drop old.length) old nw
    else c :: replaceAll fuel s old nw

/-- `convert_if(lua)`: for every `findall` match whose full text does not
contain `then`, build
`"\n{tab}if {cond} then\n{tab}\t{stat}\n{tab}end\n"` and replace all
occurrences of the matched text in the current string. -/
def convert_if (lua : List Char) : List Char :=
  (findIfMatches (lua.length + 1) lua).foldl
    (fun cur r =>
      if containsSeq ("then".toList) r.1 then cur
      else
        let cs := get_if_condition r.2.2
        let nw := '\n' :: (r.2.1 ++ ("if ".toList) ++ cs.1 ++ (" then\n".toList) ++
                    r.2.1 ++ '\t' :: cs.2 ++ '\n' :: (r.2.1 ++ ("end\n".toList)))
        replaceAll (cur.length + 1) cur r.1 nw)
    lua

/-- `re.sub("(\s+)//(\s*)", r"\1--\2", lua)`: a whitespace run followed by
`//` becomes the run followed by `--`, keeping the following whitespace. -/
def subSlashAux : Nat → List Char → List Char
  | 0, s => s
  | _ + 1, [] => []
  | fuel + 1, c :: s =>
    if isSpaceChar c then
      let ws1 := (c :: s).takeWhile isSpaceChar
      match (c :: s).drop ws1.length with
      | '/' :: '/' :: rest =>
        let ws2 := rest.takeWhile isSpaceChar
        ws1 ++ '-' :: '-' :: (ws2 ++ subSlashAux fuel (rest.drop ws2.length))
      | _ => c :: subSlashAux fuel s
    else c :: subSlashAux fuel s

def re_sub_slash_comment (lua : List Char) : List Char :=
  subSlashAux (lua.length + 1) lua

/-- `convert_p8_syntax_to_lua(lua)`: the five update operators in source
order, then `!=`, then `convert_if` twice ("do this twice since all the
replacement makes some miss"), then the `//` comment rewrite. -/
def convert_p8_syntax_to_lua (lua : List Char) : List Char :=
  let l1 := re_sub_update_operator '+' lua
  let l2 := re_sub_update_operator '-' l1
  let l3 := re_sub_update_operator '*' l2
  let l4 := re_sub_update_operator '/' l3
  let l5 := re_sub_update_operator '%' l4
  let l6 := re_sub_not_equal l5
  let l7 := convert_if l6
  let l8 := convert_if l7
  re_sub_slash_comment l8

/-- The flag-dependent tail of `process_lua_for_p8`: multi-line comment
stripping if `removecomments` ended up defined, then the syntax conversion
if `plainlua` ended up defined — both consulted only after the whole
directive pass. -/
def applyFinalFlags (st : DirState) : List Char :=
  let r := if ("removecomments".toList) ∈ st.defined
           then stripMultiComments st.out else st.out
  if ("plainlua".toList) ∈ st.defined then convert_p8_syntax_to_lua r else r

/-- `process_lua_for_p8(lua)`: the include pass, then the directive pass
over the re-split lines, then the final flags.  `none` models the
uncaught IOError of a failing include. -/
def process_lua_for_p8 (resolve : List Char → Option (List Char))
    (lua : List Char) : Option (List Char) :=
  match includeLines resolve (splitLines lua) with
  | none => none
  | some lua2 => some (applyFinalFlags (runDirectives (splitLines lua2)))

/-- The effect of `on_lua_changed` on the companion .p8 file's content:
the transformed lua is spliced between the current head and tail.  An
exception from `process_lua_for_p8` (failed include) or from `parse_p8`
(`result[0]` on no match) propagates before the write, leaving the .p8
content as it was. -/
def on_lua_changed_p8 (resolve : List Char → Option (List Char))
    (luaContent p8Content : List Char) : List Char :=
  match process_lua_for_p8 resolve luaContent with
  | none => p8Content
  | some code =>
    match parse_p8 p8Content with
    | none => p8Content
    | some r => p8join r.1 code r.2.2

/-! ## Theorems -/

/-- Claim C1: `is_active_code(active, defined)` is true when `active` is
empty, regardless of `defined`; and for non-empty `active` it is true iff
the intersection of `active` and `defined` is non-empty.  Both parts are
captured by one equivalence: the result is `true` iff `active` is empty or
some label is in both sets. -/
theorem is_active_code_spec (active defined : List (List Char)) :
    is_active_code active defined = true ↔
      (active = [] ∨ ∃ t, t ∈ active ∧ t ∈ defined) := by
  unfold is_active_code
  cases active with
  | nil => simp
  | cons a l =>
    rw [if_neg (by simp)]
    simp only [List.any_eq_true]
    constructor
    · rintro ⟨t, ht, hc⟩
      exact Or.inr ⟨t, ht, List.elem_iff.mp hc⟩
    · rintro (h | ⟨t, ht, hd⟩)
      · exact absurd h (by simp)
      · exact ⟨t, ht, List.elem_iff.mpr hd⟩

/-- A literal matches at the front of itself followed by anything. -/
theorem startsWith_self_append (m t : List Char) : startsWith m (m ++ t) = true := by
  induction m with
  | nil => rfl
  | cons a ms ih => simp [startsWith, ih]

/-- A match needs at least the literal's length. -/
theorem startsWith_length_le (m s : List Char) (h : startsWith m s = true) :
    m.length ≤ s.length := by
  induction m generalizing s with
  | nil => simp
  | cons a ms ih =>
    cases s with
    | nil => simp [startsWith] at h
    | cons b ss =>
      simp only [startsWith, Bool.and_eq_true] at h
      simpa using ih ss h.2

/-- A match within the first `n` characters survives `take n`. -/
theorem startsWith_take (m : List Char) :
    ∀ (t : List Char) (n : Nat), startsWith m t = true → m.length ≤ n →
      startsWith m (t.take n) = true := by
  induction m with
  | nil => intro t n _ _; rfl
  | cons a ms ih =>
    intro t n h hn
    cases t with
    | nil => simp [startsWith] at h
    | cons b ts =>
      cases n with
      | zero => simp at hn
      | succ k =>
        simp only [startsWith, Bool.and_eq_true] at h
        simp only [List.take_succ_cons, startsWith, Bool.and_eq_true]
        exact ⟨h.1, ih ts k h.2 (by simpa using hn)⟩

/-- The recursion equation of `lastOcc` on a cons. -/
theorem lastOcc_cons (m : List Char) (c : Char) (s : List Char) :
    lastOcc m (c :: s) =
      match lastOcc m s with
      | some i => some (i + 1)
      | none => if startsWith m (c :: s) then some 0 else none := rfl

/-- What `lastOcc` returns is an occurrence. -/
theorem lastOcc_sound (m : List Char) :
    ∀ (s : List Char) (j : Nat), lastOcc m s = some j →
      startsWith m (s.drop j) = true := by
  intro s
  induction s with
  | nil =>
    intro j h
    have h2 : (if startsWith m ([] : List Char) then some 0 else none) = some j := h
    by_cases hsw : startsWith m [] = true
    · rw [if_pos hsw] at h2
      injection h2 with h3
      subst h3
      simpa using hsw
    · rw [if_neg hsw] at h2
      exact Option.noConfusion h2
  | cons c ss ih =>
    intro j h
    rw [lastOcc_cons] at h
    cases heq : lastOcc m ss with
    | some i =>
      rw [heq] at h
      have h2 : some (i + 1) = some j := h
      injection h2 with h3
      subst h3
      simpa using ih i heq
    | none =>
      rw [heq] at h
      have h2 : (if startsWith m (c :: ss) then some 0 else none) = some j := h
      by_cases hsw : startsWith m (c :: ss) = true
      · rw [if_pos hsw] at h2
        injection h2 with h3
        subst h3
        simpa using hsw
      · rw [if_neg hsw] at h2
        exact Option.noConfusion h2

/-- Every occurrence is at or before the one `lastOcc` returns. -/
theorem lastOcc_complete (m : List Char) (hm : 0 < m.length) :
    ∀ (s : List Char) (k : Nat), startsWith m (s.drop k) = true →
      ∃ j, lastOcc m s = some j ∧ k ≤ j := by
  intro s
  induction s with
  | nil =>
    intro k h
    cases m with
    | nil => simp at hm
    | cons a ms => simp [startsWith] at h
  | cons c ss ih =>
    intro k h
    cases k with
    | zero =>
      cases heq : lastOcc m ss with
      | some i =>
        refine ⟨i + 1, ?_, Nat.zero_le _⟩
        rw [lastOcc_cons, heq]
      | none =>
        have h0 : startsWith m (c :: ss) = true := by simpa using h
        refine ⟨0, ?_, le_refl 0⟩
        rw [lastOcc_cons, heq]
        show (if startsWith m (c :: ss) then some 0 else none) = some 0
        rw [if_pos h0]
    | succ k2 =>
      obtain ⟨j2, hj2, hk2⟩ := ih k2 (by simpa using h)
      refine ⟨j2 + 1, ?_, Nat.succ_le_succ hk2⟩
      rw [lastOcc_cons, hj2]

/-- Claim C2: for container regions `head` (ending with the `__lua__`
marker line), `code` (containing neither marker) and `tail` (starting with
the `__gfx__` marker line), splitting the reassembled text
`head ++ code ++ tail` with `parse_p8` succeeds, and re-joining the three
returned regions reproduces the text exactly. -/
theorem parse_p8_roundtrip (head code tail : List Char)
    (hh : ∃ h0, head = h0 ++ luaMarker)
    (ht : ∃ t2, tail = gfxMarker ++ t2)
    (_hc1 : containsSeq luaMarker code = false)
    (_hc2 : containsSeq gfxMarker code = false) :
    (parse_p8 (p8join head code tail)).map (fun r => p8join r.1 r.2.1 r.2.2) =
      some (p8join head code tail) := by
  obtain ⟨h0, rfl⟩ := hh
  obtain ⟨t2, rfl⟩ := ht
  have hL : luaMarker.length = 9 := by decide
  set S : List Char := p8join (h0 ++ luaMarker) code (gfxMarker ++ t2) with hSdef
  have hS1 : S = ((h0 ++ luaMarker) ++ code) ++ (gfxMarker ++ t2) := by
    simp [hSdef, p8join]
  have hS2 : S = h0 ++ (luaMarker ++ (code ++ (gfxMarker ++ t2))) := by
    simp [hSdef, p8join]
  have hocc2 : startsWith gfxMarker
      (S.drop ((h0 ++ luaMarker) ++ code).length) = true := by
    rw [hS1, List.drop_left]
    exact startsWith_self_append _ _
  obtain ⟨j, hj, hjk⟩ := lastOcc_complete gfxMarker (by decide) _ _ hocc2
  have hjge : h0.length + luaMarker.length + code.length ≤ j := by
    simp only [List.length_append] at hjk
    omega
  have hocc1 : startsWith luaMarker ((S.take j).drop h0.length) = true := by
    rw [List.drop_take, hS2, List.drop_left]
    apply startsWith_take
    · exact startsWith_self_append _ _
    · omega
  obtain ⟨i, hi, _⟩ := lastOcc_complete luaMarker (by decide) _ _ hocc1
  have hi9 : i + luaMarker.length ≤ j := by
    have hs := lastOcc_sound luaMarker _ i hi
    have hlen := startsWith_length_le _ _ hs
    simp only [List.length_drop, List.length_take] at hlen
    omega
  have hp : parse_p8 S = some (S.take (i + luaMarker.length),
      ((S.drop (i + luaMarker.length)).take (j - (i + luaMarker.length)), S.drop j)) := by
    unfold parse_p8
    rw [hj]
    show (match lastOcc luaMarker (S.take j) with
          | none => none
          | some i => some (S.take (i + luaMarker.length),
              ((S.drop (i + luaMarker.length)).take (j - (i + luaMarker.length)),
               S.drop j))) = _
    rw [hi]
  rw [hp]
  simp only [Option.map_some']
  congr 1
  have hjoin : S.take (i + luaMarker.length) ++
      (S.drop (i + luaMarker.length)).take (j - (i + luaMarker.length)) = S.take j := by
    rw [← List.take_add]
    congr 1
    omega
  simp only [p8join]
  rw [hjoin, List.take_append_drop]

/-- Witness for C2 at a concrete cartridge. -/
theorem parse_p8_roundtrip_witness :
    (parse_p8 (p8join (("pico\n__lua__\n").toList) (("x=1").toList)
        (("\n__gfx__\n00").toList))).map (fun r => p8join r.1 r.2.1 r.2.2) =
      some (p8join (("pico\n__lua__\n").toList) (("x=1").toList)
        (("\n__gfx__\n00").toList)) :=
  parse_p8_roundtrip _ _ _ ⟨(("pico").toList), by decide⟩
    ⟨(("00").toList), by decide⟩ (by decide) (by decide)

/-- Claim C3 (code bug): on a cartridge text that contains the opening
`__lua__` marker line but no `__gfx__` marker line, `parse_p8` does not
succeed with an empty tail as documented — its regex requires the closing
marker, `findall` returns no match and `result[0]` raises IndexError
(modelled by `none`). -/
theorem parse_p8_missing_gfx_marker_fails :
    containsSeq luaMarker (("\n__lua__\nx=1").toList) = true ∧
    containsSeq gfxMarker (("\n__lua__\nx=1").toList) = false ∧
    parse_p8 (("\n__lua__\nx=1").toList) = none := by decide

/-- Claim C4 (counterexample): the compound-assignment rewrite does not
produce `"x = x + 1"` from `"x += 1"` nor `"hp = hp - dmg"` from
`"hp -= dmg"` — the replacement `r"\1=\1 %s \4"` puts no space around the
first `=`. -/
theorem re_sub_update_operator_claimed_shape_fails :
    re_sub_update_operator '+' (("x += 1").toList) ≠ (("x = x + 1").toList) ∧
    re_sub_update_operator '-' (("hp -= dmg").toList) ≠ (("hp = hp - dmg").toList) := by
  decide

/-- Claim C4 (amended): the compound-assignment rewrite maps `"x += 1"` to
`"x=x + 1"` and `"hp -= dmg"` to `"hp=hp - dmg"`: the lvalue is duplicated
with single spaces around the operator, and the whitespace before the
operator is dropped, leaving no space before the `=`. -/
theorem re_sub_update_operator_actual_output :
    re_sub_update_operator '+' (("x += 1").toList) = (("x=x + 1").toList) ∧
    re_sub_update_operator '-' (("hp -= dmg").toList) = (("hp=hp - dmg").toList) := by
  decide

/-- Claim C5 (counterexample): the if-rewrite of `"  if (x>0) print(x)"`
on its own line does not produce a middle line with the tab immediately
followed by `print(x)`: the statement text after the closing parenthesis
keeps its leading space. -/
theorem convert_if_claimed_output_fails :
    convert_if (("\n  if (x>0) print(x)\n").toList) ≠
      (("\n  if x>0 then\n  \tprint(x)\n  end\n").toList) := by
  decide

/-- Claim C5 (amended): the if-rewrite of `"  if (x>0) print(x)"` on its
own line produces the three lines `"if x>0 then"`, `"\t print(x)"` (the
tab, then the statement text verbatim, which starts with the space that
followed the closing parenthesis) and `"end"`, each prefixed with the
original line's leading indentation. -/
theorem convert_if_actual_output :
    convert_if (("\n  if (x>0) print(x)\n").toList) =
      (("\n  if x>0 then\n  \t print(x)\n  end\n").toList) := by
  decide

/-- Claim C6 (counterexample): the Syntax Normalizer is not idempotent.
Each application runs exactly two if-rewrite passes, so a line stacking
three parenthesized `if`s is converted further by a second application. -/
theorem convert_p8_syntax_not_idempotent :
    convert_p8_syntax_to_lua
        (convert_p8_syntax_to_lua (("\nif (a) if (b) if (c) x=1\n").toList)) ≠
      convert_p8_syntax_to_lua (("\nif (a) if (b) if (c) x=1\n").toList) := by
  decide

/-- Claim C6 (amended): on already-normalized text the Syntax Normalizer
is the identity — an already-converted assignment `a = a + b` and an
if-statement already containing `then` are left unchanged, so a second
application changes nothing there — but idempotence fails on texts that
still contain more nested parenthesized `if`s than the two built-in
if-rewrite passes can finish. -/
theorem convert_p8_syntax_fixed_on_normalized :
    convert_p8_syntax_to_lua (("\na = a + b\n").toList) = (("\na = a + b\n").toList) ∧
    convert_p8_syntax_to_lua (("\nif (x>0) then y=1 end\n").toList) =
      (("\nif (x>0) then y=1 end\n").toList) := by
  decide

/-- The recursion equation of the include pass on a cons. -/
theorem includeLines_cons (resolve : List Char → Option (List Char))
    (line : List Char) (rest : List (List Char)) :
    includeLines resolve (line :: rest) =
      if startsWith (("--#include ").toList) line then
        match resolve (line.drop 11) with
        | none => none
        | some txt => (includeLines resolve rest).map (fun r => txt ++ '\n' :: r)
      else (includeLines resolve rest).map (fun r => line ++ '\n' :: r) := rfl

/-- A single unresolvable `--#include ` line anywhere makes the whole
include pass fail (the IOError propagates). -/
theorem includeLines_failing (resolve : List Char → Option (List Char)) :
    ∀ lines : List (List Char),
      (∃ l ∈ lines, startsWith (("--#include ").toList) l = true ∧
        resolve (l.drop 11) = none) →
      includeLines resolve lines = none := by
  intro lines
  induction lines with
  | nil =>
    rintro ⟨l, hl, -⟩
    simp at hl
  | cons a rest ih =>
    rintro ⟨l, hl, hpre, hres⟩
    rcases List.mem_cons.mp hl with rfl | hmem
    · rw [includeLines_cons, if_pos hpre, hres]
    · have hr := ih ⟨l, hmem, hpre, hres⟩
      rw [includeLines_cons]
      by_cases hp : startsWith (("--#include ").toList) a = true
      · rw [if_pos hp]
        cases hres2 : resolve (a.drop 11) with
        | none => rfl
        | some txt =>
          rw [hr]
          rfl
      · rw [if_neg hp, hr]
        rfl

/-- Claim C7: when the source text contains an include directive whose
path does not resolve, the error propagates out of the
conditional-compilation engine (`process_lua_for_p8` produces nothing)
before any write occurs, and the companion .p8 content after the run is
exactly what it was before (no partial write). -/
theorem failing_include_aborts_before_write
    (resolve : List Char → Option (List Char)) (lua p8 : List Char)
    (h : ∃ l ∈ splitLines lua, startsWith (("--#include ").toList) l = true ∧
      resolve (l.drop 11) = none) :
    process_lua_for_p8 resolve lua = none ∧
    on_lua_changed_p8 resolve lua p8 = p8 := by
  have hnone : process_lua_for_p8 resolve lua = none := by
    unfold process_lua_for_p8
    rw [includeLines_failing resolve _ h]
  refine ⟨hnone, ?_⟩
  unfold on_lua_changed_p8
  rw [hnone]

/-- A resolver with no readable file at all, for the witness. -/
def resolveNone : List Char → Option (List Char) := fun _ => none

/-- Witness for C7 at a concrete source and cartridge. -/
theorem failing_include_aborts_before_write_witness :
    process_lua_for_p8 resolveNone (("--#include lib/util\nx=1").toList) = none ∧
    on_lua_changed_p8 resolveNone (("--#include lib/util\nx=1").toList)
        (("hd\n__lua__\nold\n__gfx__\n00").toList) =
      (("hd\n__lua__\nold\n__gfx__\n00").toList) :=
  failing_include_aborts_before_write resolveNone _ _
    ⟨(("--#include lib/util").toList), by decide, by decide, rfl⟩

/-- A `--#if ` directive line for label `X`. -/
def ifLineOf (X : List Char) : List Char := (("--#if ").toList) ++ X

/-- A `--#end ` directive line for label `X`. -/
def endLineOf (X : List Char) : List Char := (("--#end ").toList) ++ X

/-- A `--#define ` directive line for label `X`. -/
def defLineOf (X : List Char) : List Char := (("--#define ").toList) ++ X

/-- A `--#undefine ` directive line for label `X`. -/
def undefLineOf (X : List Char) : List Char := (("--#undefine ").toList) ++ X

/-- Claim C8: the directive pass tracks open `--#if` blocks by set
membership, not a nesting counter: `--#if X` inserts `X` only if absent
(so a second `--#if X` while `X` is active changes nothing at all), and
`--#end X` erases `X` outright — for the duplicate-free sets the pass
builds, `X` is no longer active afterwards, no matter how many `--#if X`
lines were processed. -/
theorem if_end_use_set_membership (st : DirState) (X : List Char) :
    ((directiveStep st (ifLineOf X)).active =
      (if X ∈ st.active then st.active else X :: st.active)) ∧
    (X ∈ st.active → directiveStep st (ifLineOf X) = st) ∧
    ((directiveStep st (endLineOf X)).active = st.active.erase X) ∧
    (st.active.Nodup → X ∉ (directiveStep st (endLineOf X)).active) := by
  refine ⟨rfl, ?_, rfl, ?_⟩
  · intro hmem
    show { st with active := if X ∈ st.active then st.active else X :: st.active } = st
    rw [if_pos hmem]
  · intro hnd
    show X ∉ st.active.erase X
    exact hnd.not_mem_erase

/-- On a line matching none of the four directive prefixes,
`directiveStep` is exactly the per-line comment handling and activity
filter. -/
theorem directiveStep_plain (st : DirState) (line : List Char)
    (h1 : startsWith (("--#define ").toList) line = false)
    (h2 : startsWith (("--#undefine ").toList) line = false)
    (h3 : startsWith (("--#if ").toList) line = false)
    (h4 : startsWith (("--#end ").toList) line = false) :
    directiveStep st line =
      if ("removecommentssingle").toList ∈ st.defined then
        (if isFullLineComment line then st
         else if is_active_code st.active st.defined then
           { st with out := st.out ++ stripEolComment line ++ ['\n'] }
         else st)
      else if is_active_code st.active st.defined then
        { st with out := st.out ++ line ++ ['\n'] }
      else st := by
  simp only [directiveStep, h1, h2, h3, h4, Bool.false_eq_true, if_false]

/-- A plain line never changes the label sets, and is emitted verbatim
when no comment handling applies and the position is active. -/
theorem directiveStep_plain_effects (st : DirState) (line : List Char)
    (h1 : startsWith (("--#define ").toList) line = false)
    (h2 : startsWith (("--#undefine ").toList) line = false)
    (h3 : startsWith (("--#if ").toList) line = false)
    (h4 : startsWith (("--#end ").toList) line = false) :
    ((directiveStep st line).defined = st.defined ∧
     (directiveStep st line).active = st.active) ∧
    ((("removecommentssingle").toList ∉ st.defined) →
      is_active_code st.active st.defined = true →
      directiveStep st line = { st with out := st.out ++ line ++ ['\n'] }) := by
  have hstep := directiveStep_plain st line h1 h2 h3 h4
  constructor
  · rw [hstep]
    by_cases hm : ("removecommentssingle").toList ∈ st.defined
    · rw [if_pos hm]
      by_cases hf : isFullLineComment line = true
      · rw [if_pos hf]
        exact ⟨rfl, rfl⟩
      · rw [if_neg hf]
        by_cases ha : is_active_code st.active st.defined = true
        · rw [if_pos ha]
          exact ⟨rfl, rfl⟩
        · rw [if_neg ha]
          exact ⟨rfl, rfl⟩
    · rw [if_neg hm]
      by_cases ha : is_active_code st.active st.defined = true
      · rw [if_pos ha]
        exact ⟨rfl, rfl⟩
      · rw [if_neg ha]
        exact ⟨rfl, rfl⟩
  · intro hrcs hact
    rw [hstep, if_neg hrcs, if_pos hact]

/-- The five directive keywords written without their trailing space. -/
def bareDirectiveWords : List (List Char) :=
  [("--#define").toList, ("--#undefine").toList, ("--#if").toList,
   ("--#end").toList, ("--#include").toList]

/-- Claim C9: a line that is exactly a directive keyword without the
trailing space and argument is not recognized as a directive: the include
pass passes it through (never consulting the resolver), the directive
pass leaves `defined` and `active` unchanged, and the line flows through
subject only to comment stripping and activity filtering — in particular
it is emitted verbatim when `removecommentssingle` is off and the
position is active. -/
theorem bare_directive_lines_flow_through (st : DirState) (w : List Char)
    (hw : w ∈ bareDirectiveWords) :
    ((directiveStep st w).defined = st.defined ∧
     (directiveStep st w).active = st.active) ∧
    (∀ resolve : List Char → Option (List Char),
      includeLines resolve [w] = some (w ++ ['\n'])) ∧
    ((("removecommentssingle").toList ∉ st.defined) →
      is_active_code st.active st.defined = true →
      directiveStep st w = { st with out := st.out ++ w ++ ['\n'] }) := by
  have hinc : startsWith (("--#include ").toList) w = false := by
    fin_cases hw <;> decide
  have heff := directiveStep_plain_effects st w
    (by fin_cases hw <;> decide) (by fin_cases hw <;> decide)
    (by fin_cases hw <;> decide) (by fin_cases hw <;> decide)
  refine ⟨heff.1, ?_, heff.2⟩
  intro resolve
  rw [includeLines_cons, if_neg (by simp only [hinc]; exact Bool.false_ne_true)]
  rfl

/-- Witness for C9: the bare `--#if` line in a state with an active,
defined `debug` label is kept as ordinary text and moves no set. -/
theorem bare_directive_lines_flow_through_witness :
    (directiveStep ⟨[("debug").toList], [("debug").toList], []⟩ (("--#if").toList)).defined =
      [("debug").toList] ∧
    includeLines resolveNone [("--#if").toList] = some ((("--#if").toList) ++ ['\n']) ∧
    directiveStep ⟨[("debug").toList], [("debug").toList], []⟩ (("--#if").toList) =
      ⟨[("debug").toList], [("debug").toList], (("--#if").toList) ++ ['\n']⟩ := by
  have h := bare_directive_lines_flow_through
    ⟨[("debug").toList], [("debug").toList], []⟩ (("--#if").toList) (by decide)
  refine ⟨h.1.1, h.2.1 resolveNone, ?_⟩
  have h3 := h.2.2 (by decide) (by decide)
  simpa using h3

/-- Lines joined with the terminating newline the pass appends to each
emitted line. -/
def joinNl (lines : List (List Char)) : List Char :=
  lines.foldr (fun l acc => l ++ '\n' :: acc) []

theorem joinNl_cons (l : List Char) (L : List (List Char)) :
    joinNl (l :: L) = l ++ '\n' :: joinNl L := rfl

/-- Whether a line starts with one of the four directive prefixes the
second pass consumes. -/
def isDirectiveLine (l : List Char) : Bool :=
  startsWith (("--#define ").toList) l || startsWith (("--#undefine ").toList) l ||
    startsWith (("--#if ").toList) l || startsWith (("--#end ").toList) l

/-- The per-line effect of the `removecommentssingle` handling on an
emitted line: a full-line comment is dropped, otherwise the trailing
comment is stripped. -/
def rcsFilter (l : List Char) : Option (List Char) :=
  if isFullLineComment l then none else some (stripEolComment l)

/-- Folding plain (non-directive) lines with no open `--#if` block and
`removecommentssingle` off emits every line verbatim. -/
theorem foldl_plain_lines (L : List (List Char)) : ∀ st : DirState,
    (∀ l ∈ L, isDirectiveLine l = false) → st.active = [] →
    ("removecommentssingle").toList ∉ st.defined →
    L.foldl directiveStep st = { st with out := st.out ++ joinNl L } := by
  induction L with
  | nil =>
    intro st _ _ _
    show st = _
    cases st
    simp [joinNl]
  | cons a L ih =>
    intro st hdir hact hrcs
    have ha := hdir a (List.mem_cons_self a L)
    simp only [isDirectiveLine, Bool.or_eq_false_iff] at ha
    have hactive : is_active_code st.active st.defined = true := by
      unfold is_active_code
      rw [hact]
      rfl
    have hstep := (directiveStep_plain_effects st a ha.1.1.1 ha.1.1.2 ha.1.2 ha.2).2
      hrcs hactive
    rw [List.foldl_cons, hstep,
      ih { st with out := st.out ++ a ++ ['\n'] }
        (fun l hl => hdir l (List.mem_cons_of_mem a hl)) hact hrcs]
    simp [joinNl_cons]

/-- Folding plain lines with no open `--#if` block and
`removecommentssingle` on emits each line through `rcsFilter`. -/
theorem foldl_rcs_lines (M : List (List Char)) : ∀ st : DirState,
    (∀ l ∈ M, isDirectiveLine l = false) → st.active = [] →
    ("removecommentssingle").toList ∈ st.defined →
    M.foldl directiveStep st =
      { st with out := st.out ++ joinNl (M.filterMap rcsFilter) } := by
  induction M with
  | nil =>
    intro st _ _ _
    show st = _
    cases st
    simp [joinNl]
  | cons a M ih =>
    intro st hdir hact hrcs
    have ha := hdir a (List.mem_cons_self a M)
    simp only [isDirectiveLine, Bool.or_eq_false_iff] at ha
    have hactive : is_active_code st.active st.defined = true := by
      unfold is_active_code
      rw [hact]
      rfl
    have hstep := directiveStep_plain st a ha.1.1.1 ha.1.1.2 ha.1.2 ha.2
    rw [List.foldl_cons, hstep, if_pos hrcs]
    by_cases hf : isFullLineComment a = true
    · rw [if_pos hf, ih st (fun l hl => hdir l (List.mem_cons_of_mem a hl)) hact hrcs]
      simp [List.filterMap_cons, rcsFilter, hf]
    · rw [if_neg hf, if_pos hactive,
        ih { st with out := st.out ++ stripEolComment a ++ ['\n'] }
          (fun l hl => hdir l (List.mem_cons_of_mem a hl)) hact hrcs]
      simp [List.filterMap_cons, rcsFilter, hf, joinNl_cons]

/-- Claim C10: `removecomments` and `plainlua` are evaluated only after
the whole directive pass, against the final `defined` set — a
`--#define removecomments` (or `plainlua`) on the last line affects the
entire output, including every line emitted before it, and appending
`--#undefine removecomments` cancels the define for the whole run — while
`removecommentssingle` is consulted per line, so lines before its define
keep their comments and only lines after it are filtered. -/
theorem final_flags_vs_per_line_flag (L M : List (List Char))
    (hL : ∀ l ∈ L, isDirectiveLine l = false)
    (hM : ∀ l ∈ M, isDirectiveLine l = false) :
    applyFinalFlags (runDirectives (L ++ [defLineOf (("removecomments").toList)])) =
      stripMultiComments (joinNl L) ∧
    applyFinalFlags (runDirectives (L ++ [defLineOf (("removecomments").toList),
      undefLineOf (("removecomments").toList)])) = joinNl L ∧
    applyFinalFlags (runDirectives (L ++ [defLineOf (("plainlua").toList)])) =
      convert_p8_syntax_to_lua (joinNl L) ∧
    applyFinalFlags (runDirectives ((L ++ [defLineOf (("removecommentssingle").toList)]) ++ M)) =
      joinNl L ++ joinNl (M.filterMap rcsFilter) := by
  have hbase : List.foldl directiveStep initDirState L = ⟨[], [], joinNl L⟩ := by
    rw [foldl_plain_lines L initDirState hL rfl (by simp [initDirState])]
    simp [initDirState]
  have hfold1 : ∀ (s : DirState) (x : List Char),
      List.foldl directiveStep s [x] = directiveStep s x := fun _ _ => rfl
  have hfold2 : ∀ (s : DirState) (x y : List Char),
      List.foldl directiveStep s [x, y] =
        directiveStep (directiveStep s x) y := fun _ _ _ => rfl
  refine ⟨?_, ?_, ?_, ?_⟩
  · unfold runDirectives
    rw [List.foldl_append, hfold1, hbase]
    rfl
  · unfold runDirectives
    rw [List.foldl_append, hfold2, hbase]
    rfl
  · unfold runDirectives
    rw [List.foldl_append, hfold1, hbase]
    rfl
  · unfold runDirectives
    rw [List.foldl_append, List.foldl_append, hfold1, hbase]
    have hstep : directiveStep ⟨[], [], joinNl L⟩
        (defLineOf (("removecommentssingle").toList)) =
        ⟨[("removecommentssingle").toList], [], joinNl L⟩ := rfl
    rw [hstep, foldl_rcs_lines M ⟨[("removecommentssingle").toList], [], joinNl L⟩
      hM rfl (by simp)]
    rfl

/-- Witness for C10 at a concrete program: the trailing define strips the
comment spans of the earlier lines, the undefine cancels it, and
`removecommentssingle` only filters the line that comes after it. -/
theorem final_flags_vs_per_line_flag_witness :
    applyFinalFlags (runDirectives ([("x=1 --[[c]]--").toList] ++
      [defLineOf (("removecomments").toList)])) =
      stripMultiComments (joinNl [("x=1 --[[c]]--").toList]) ∧
    applyFinalFlags (runDirectives ([("x=1 --[[c]]--").toList] ++
      [defLineOf (("removecomments").toList),
       undefLineOf (("removecomments").toList)])) = joinNl [("x=1 --[[c]]--").toList] ∧
    applyFinalFlags (runDirectives ([("x=1 --[[c]]--").toList] ++
      [defLineOf (("plainlua").toList)])) =
      convert_p8_syntax_to_lua (joinNl [("x=1 --[[c]]--").toList]) ∧
    applyFinalFlags (runDirectives (([("x=1 --[[c]]--").toList] ++
      [defLineOf (("removecommentssingle").toList)]) ++ [("y=2 -- d").toList])) =
      joinNl [("x=1 --[[c]]--").toList] ++
        joinNl ([("y=2 -- d").toList].filterMap rcsFilter) :=
  final_flags_vs_per_line_flag [("x=1 --[[c]]--").toList] [("y=2 -- d").toList]
    (by decide) (by decide)

end P8Lua
